import Mathlib

/-!
Verification of the combat-script compiler found in
`src/src-tauri/backend/utils/parser.py` (class `Parser`).

The Python code is shallowly embedded: every function of the source is a
computable Lean function over `String`/`List String`, Python exceptions are
modelled by `Except PyErr`, Python dict assignment by `dictSet` over
association lists (insertion order preserved, replacement in place), and the
two `while` loops of the source carry an explicit fuel argument equal to the
number of remaining lines, which is shown sufficient because every loop
iteration consumes at least one line.

Python string primitives (`strip`, `lower`, `split`, `startswith`, negative
indexing, `int(...)`) are modelled for ASCII text, which covers the whole DSL.
-/

deriving instance DecidableEq for Except

/-- Python runtime exceptions that the parser can raise.  `indexError` models
out-of-range indexing/`pop` on an empty list, `loopFuel` is an artifact of the
fuel-based embedding of the source's `while` loops and is never produced when
the fuel is at least the number of remaining lines. -/
inductive PyErr where
  | valueError (msg : String)
  | runtimeError (msg : String)
  | typeError (msg : String)
  | indexError
  | loopFuel
deriving DecidableEq, Repr

/-- The whitespace characters stripped by Python's `str.strip()` (ASCII). -/
def pyIsSpace (c : Char) : Bool := [' ', '\t', '\n', '\r', '\x0b', '\x0c'].contains c

/-- ASCII uppercase-to-lowercase table: the effect of Python's `str.lower()`
on the ASCII range. -/
def ucTable : List (Char × Char) :=
  [('A','a'),('B','b'),('C','c'),('D','d'),('E','e'),('F','f'),('G','g'),
   ('H','h'),('I','i'),('J','j'),('K','k'),('L','l'),('M','m'),('N','n'),
   ('O','o'),('P','p'),('Q','q'),('R','r'),('S','s'),('T','t'),('U','u'),
   ('V','v'),('W','w'),('X','x'),('Y','y'),('Z','z')]

/-- Lower-case one character, Python `str.lower()` semantics on ASCII. -/
def pyToLower (c : Char) : Char :=
  match ucTable.lookup c with
  | some l => l
  | none => c

/-- Python `str.lower()`. -/
def pyLower (s : String) : String := String.mk (s.data.map pyToLower)

/-- Strip leading whitespace of a character list. -/
def lstripL (l : List Char) : List Char := l.dropWhile pyIsSpace

/-- Strip trailing whitespace of a character list. -/
def rstripL (l : List Char) : List Char := (l.reverse.dropWhile pyIsSpace).reverse

/-- Strip both ends of a character list. -/
def stripL (l : List Char) : List Char := rstripL (lstripL l)

/-- Python `str.strip()`. -/
def pyStrip (s : String) : String := String.mk (stripL s.data)

/-- Python `str.lstrip()`. -/
def pyLstrip (s : String) : String := String.mk (lstripL s.data)

/-- `isStartOf pat l` decides whether `pat` is an initial segment of `l`. -/
def isStartOf : List Char → List Char → Bool
  | [], _ => true
  | _ :: _, [] => false
  | a :: as, b :: bs => a = b && isStartOf as bs

/-- Python `s.startswith(p)`. -/
def pyStartsWith (s p : String) : Bool := isStartOf p.data s.data

/-- Python `str.split(sep)` with an explicit one-character separator, on
character lists.  `split` never returns an empty list: splitting the empty
string gives `[[]]`. -/
def pySplit (sep : Char) : List Char → List (List Char)
  | [] => [[]]
  | c :: cs =>
    if c = sep then [] :: pySplit sep cs
    else
      match pySplit sep cs with
      | [] => [[c]]
      | g :: gs => (c :: g) :: gs

/-- Python `str.split(sep)` on strings. -/
def pySplitStr (sep : Char) (s : String) : List String := (pySplit sep s.data).map String.mk

/-- Python `s[-1]`: the last character, `IndexError` on an empty string. -/
def pyCharNeg1 (s : String) : Except PyErr Char :=
  match s.data.reverse with
  | c :: _ => .ok c
  | [] => .error .indexError

/-- Python `s[-2]`: the next-to-last character, `IndexError` when `len(s) < 2`. -/
def pyCharNeg2 (s : String) : Except PyErr Char :=
  match s.data.reverse with
  | _ :: c :: _ => .ok c
  | _ => .error .indexError

/-- Python `s[5:-1]`: slicing never fails, short strings give `""`. -/
def pySlice5Neg1 (s : String) : String := String.mk ((s.data.drop 5).dropLast)

/-- ASCII decimal digit test. -/
def pyIsDigit (c : Char) : Bool := '0' ≤ c && c ≤ '9'

/-- Numeric value of a list of ASCII digits. -/
def pyDigitsVal (ds : List Char) : Nat := ds.foldl (fun a c => a * 10 + (c.toNat - 48)) 0

/-- Digit-string to integer, `ValueError` when empty or non-digit. -/
def pyIntCore (ds : List Char) : Except PyErr Int :=
  if ds ≠ [] ∧ ds.all pyIsDigit then .ok (pyDigitsVal ds)
  else .error (.valueError "invalid literal for int")

/-- Python `int(s)`: strips whitespace, accepts an optional sign followed by
ASCII digits, raises `ValueError` otherwise. -/
def pyInt (s : String) : Except PyErr Int :=
  match stripL s.data with
  | '+' :: ds => pyIntCore ds
  | '-' :: ds =>
    match pyIntCore ds with
    | .ok n => .ok (-n)
    | .error e => .error e
  | ds => pyIntCore ds

/-- Python `int(c)` for a one-character string. -/
def pyIntChar (c : Char) : Except PyErr Int := pyInt (String.mk [c])

/-- One compiled action.  `act name args` models the Python dict
`\x7bname: \x7b... args ...\x7d\x7d` used for every recognized action, and `tup name`
models the pair `(name, \x7b\x7d)` that the source appends for the `attack` line. -/
inductive ScriptAction where
  | act (name : String) (args : List (String × Int)) : ScriptAction
  | tup (name : String) : ScriptAction
deriving DecidableEq, Repr

/-- The `combact_actions` dict: turn number to ordered action sequence. -/
abbrev TurnMap := List (Int × List ScriptAction)

/-- The `raid_info` dict: `url`, `summon` and `repeat` keys, each possibly
absent. -/
structure RaidInfo where
  url : Option String
  summon : Option String
  «repeat» : Option Int
deriving DecidableEq, Repr

/-- One finalized raid block: `\x7b'info': raid_info, 'combact_actions': ...\x7d`. -/
structure RaidBlock where
  info : RaidInfo
  combact_actions : TurnMap
deriving DecidableEq, Repr

/-- `list_of_raids`: raid id to raid block, in insertion order. -/
abbrev CompiledScript := List (Nat × RaidBlock)

/-- Python dict assignment `d[k] = v` on an insertion-ordered association
list: replace in place when the key is present, append otherwise. -/
def dictSet {α β : Type} [DecidableEq α] : List (α × β) → α → β → List (α × β)
  | [], k, v => [(k, v)]
  | (k', v') :: rest, k, v =>
    if k' = k then (k, v) :: rest else (k', v') :: dictSet rest k v

/-- Python dict lookup `d.get(k)` on an association list. -/
def dictGet {α β : Type} [DecidableEq α] : List (α × β) → α → Option β
  | [], _ => none
  | (k', v) :: rest, k => if k' = k then some v else dictGet rest k

namespace Parser

/-- `Parser.pre_parse`: strip and lower-case every line, drop it when the
result is empty or starts with `#` or with `/`, and append the surviving line
after `lstrip()` (a no-op on an already stripped line). -/
def pre_parse (text : List String) : List String :=
  (text.map fun line => pyLower (pyStrip line)).filterMap fun line =>
    if line = "" ∨ pyStartsWith line "#" = true ∨ pyStartsWith line "/" = true then none
    else some (pyLstrip line)

/-- `Parser._parse_summon`: when the first line starts with `summon:`, consume
it and return `line.split(':')[1]` (the `startswith` guard guarantees that the
split has at least two fields). -/
def _parse_summon (txt : List String) : List String × Option String :=
  match txt with
  | [] => (txt, none)
  | l :: rest =>
    if pyStartsWith l "summon:" = true then (rest, some ((pySplitStr ':' l).getD 1 ""))
    else (txt, none)

/-- `Parser._parse_url`: when the first line starts with `http`, consume it
and return it whole. -/
def _parse_url (txt : List String) : List String × Option String :=
  match txt with
  | [] => (txt, none)
  | l :: rest =>
    if pyStartsWith l "http" = true then (rest, some l)
    else (txt, none)

/-- `Parser._parse_repeat`: when the first line starts with `repeat:`, consume
it and return `int(line[-1])` (which can raise `ValueError`). -/
def _parse_repeat (txt : List String) : Except PyErr (List String × Option Int) :=
  match txt with
  | [] => .ok (txt, none)
  | l :: rest =>
    if pyStartsWith l "repeat:" = true then
      match pyCharNeg1 l with
      | .error e => .error e
      | .ok c =>
        match pyIntChar c with
        | .error e => .error e
        | .ok n => .ok (rest, some n)
    else .ok (txt, none)

/-- The `for cmd in chains` loop of `Parser._parse_character`, threading the
`is_skill_selected` flag.  A segment that is neither a `useskill...` nor a
`target...` segment matches no branch of the source loop and is skipped. -/
def _parse_character_cmds : List String → Bool → Except PyErr (List ScriptAction)
  | [], _ => .ok []
  | cmd :: rest, is_skill_selected =>
    if pyStartsWith cmd "useskill" = true then
      match pyCharNeg2 cmd with
      | .error e => .error e
      | .ok c =>
        match pyIntChar c with
        | .error e => .error e
        | .ok skill_idx =>
          if ¬(skill_idx = 1 ∨ skill_idx = 2 ∨ skill_idx = 3 ∨ skill_idx = 4) then
            .error (.valueError "[Parser] Invalid skill number")
          else
            match _parse_character_cmds rest true with
            | .error e => .error e
            | .ok tail => .ok (ScriptAction.act "useskill" [("idx", skill_idx - 1)] :: tail)
    else if pyStartsWith cmd "target" = true then
      match pyCharNeg2 cmd with
      | .error e => .error e
      | .ok c =>
        match pyIntChar c with
        | .error e => .error e
        | .ok target_idx =>
          if ¬(target_idx = 1 ∨ target_idx = 2 ∨ target_idx = 3 ∨ target_idx = 4 ∨
               target_idx = 5 ∨ target_idx = 6) then
            .error (.valueError "[Parser] Invalid skill target number")
          else if is_skill_selected = false then
            .error (.runtimeError "[Parser] Select a skill before picking a target")
          else
            match _parse_character_cmds rest false with
            | .error e => .error e
            | .ok tail => .ok (ScriptAction.act "target" [("idx", target_idx - 1)] :: tail)
    else _parse_character_cmds rest is_skill_selected

/-- `Parser._parse_character`: split the line on `.`, read the character index
from the last character of the leading segment, emit `changechar`/`selectchar`
according to `is_char_selected`, then run the segment loop. -/
def _parse_character (line : String) (is_char_selected : Bool) : Except PyErr (List ScriptAction) :=
  match pySplitStr '.' line with
  | [] => .error .indexError
  | c0 :: chains =>
    match pyCharNeg1 c0 with
    | .error e => .error e
    | .ok c =>
      match pyIntChar c with
      | .error e => .error e
      | .ok char_idx =>
        if ¬(char_idx = 1 ∨ char_idx = 2 ∨ char_idx = 3 ∨ char_idx = 4) then
          .error (.valueError "[Parser] Invalid chracter number")
        else
          match _parse_character_cmds chains false with
          | .error e => .error e
          | .ok tail =>
            .ok ((if is_char_selected then ScriptAction.act "changechar" [("idx", char_idx - 1)]
                  else ScriptAction.act "selectchar" [("idx", char_idx - 1)]) :: tail)

/-- The `while` loop of `Parser._parse_turn`, popping lines until `end` or
end of input, threading `is_char_selected`.  In the `summon` branch, when a
character is selected the source appends the set literal
`\x7b"deselectchar", \x7b\x7d\x7d`; building that set hashes its dict element and raises
`TypeError: unhashable type`, which the model returns at that point.  The
same set literal occurs in the `enablefullauto` branch. -/
def _parse_turn_lines : List String → Bool → Except PyErr (List String × List ScriptAction)
  | [], _ => .ok ([], [])
  | line :: rest, is_char_selected =>
    if pyStartsWith line "character" = true then
      match _parse_character line is_char_selected with
      | .error e => .error e
      | .ok acts =>
        match _parse_turn_lines rest true with
        | .error e => .error e
        | .ok (rem, tail) => .ok (rem, acts ++ tail)
    else if pyStartsWith line "wait" = true then
      match pyInt (pySlice5Neg1 line) with
      | .error e => .error e
      | .ok t =>
        match _parse_turn_lines rest is_char_selected with
        | .error e => .error e
        | .ok (rem, tail) => .ok (rem, ScriptAction.act "wait" [("time", t)] :: tail)
    else if pyStartsWith line "summon" = true then
      match pyCharNeg2 line with
      | .error e => .error e
      | .ok c =>
        match pyIntChar c with
        | .error e => .error e
        | .ok idx =>
          if ¬(idx = 1 ∨ idx = 2 ∨ idx = 3 ∨ idx = 4 ∨ idx = 5 ∨ idx = 6) then
            .error (.valueError "")
          else if is_char_selected then
            .error (.typeError "unhashable type: dict")
          else
            match _parse_turn_lines rest is_char_selected with
            | .error e => .error e
            | .ok (rem, tail) => .ok (rem, ScriptAction.act "usesummon" [("idx", idx - 1)] :: tail)
    else if line = "attack" then
      match _parse_turn_lines rest false with
      | .error e => .error e
      | .ok (rem, tail) => .ok (rem, ScriptAction.tup line :: tail)
    else if line = "enablefullauto" then
      if is_char_selected then
        .error (.typeError "unhashable type: dict")
      else
        match _parse_turn_lines rest is_char_selected with
        | .error e => .error e
        | .ok (rem, tail) => .ok (rem, ScriptAction.act line [] :: tail)
    else if line = "end" then .ok (rest, [])
    else
      match _parse_turn_lines rest is_char_selected with
      | .error e => .error e
      | .ok (rem, tail) => .ok (rem, ScriptAction.act line [] :: tail)

/-- `Parser._parse_turn`: pop the first line, read the turn number from its
next-to-last character via `int(...)`, then run the line loop with the
selection flag initially cleared. -/
def _parse_turn (text : List String) : Except PyErr (List String × Int × List ScriptAction) :=
  match text with
  | [] => .error .indexError
  | line0 :: rest =>
    match pyCharNeg2 line0 with
    | .error e => .error e
    | .ok c =>
      match pyIntChar c with
      | .error e => .error e
      | .ok turn =>
        match _parse_turn_lines rest false with
        | .error e => .error e
        | .ok (rem, acts) => .ok (rem, turn, acts)

/-- The `while remain_txt and remain_txt[0].startswith('turn')` loop of
`Parser._parse_combact`.  The fuel argument bounds the number of iterations;
each iteration consumes at least the popped `turn ...` header line, so fuel
equal to the number of remaining lines is sufficient. -/
def _parse_combact_loop : Nat → List String → TurnMap → Except PyErr (List String × TurnMap)
  | _, [], acc => .ok ([], acc)
  | 0, _ :: _, _ => .error .loopFuel
  | fuel + 1, line :: rest, acc =>
    if pyStartsWith line "turn" = true then
      match _parse_turn (line :: rest) with
      | .error e => .error e
      | .ok (rem, turns, actions) => _parse_combact_loop fuel rem (dictSet acc turns actions)
    else .ok (line :: rest, acc)

/-- `Parser._parse_combact`: parse a contiguous run of turn blocks into a
fresh dict, assigning `combact_actions[turns] = actions` for each block. -/
def _parse_combact (text : List String) : Except PyErr (List String × TurnMap) :=
  if text = [] then .ok (text, [])
  else _parse_combact_loop text.length text []

/-- Specification companion of `_parse_combact` used to state claim C10: the
same loop, but recording the successive `(turn, actions)` results of
`_parse_turn` in order instead of folding them into the dict. -/
def _parse_combact_trace_loop : Nat → List String → Except PyErr (List String × List (Int × List ScriptAction))
  | _, [] => .ok ([], [])
  | 0, _ :: _ => .error .loopFuel
  | fuel + 1, line :: rest =>
    if pyStartsWith line "turn" = true then
      match _parse_turn (line :: rest) with
      | .error e => .error e
      | .ok (rem, turns, actions) =>
        match _parse_combact_trace_loop fuel rem with
        | .error e => .error e
        | .ok (rem', ps) => .ok (rem', (turns, actions) :: ps)
    else .ok (line :: rest, [])

/-- The sequence of turn blocks consumed by `_parse_combact`, in parse order,
with duplicated turn numbers kept. -/
def _parse_combact_trace (text : List String) : Except PyErr (List String × List (Int × List ScriptAction)) :=
  if text = [] then .ok (text, [])
  else _parse_combact_trace_loop text.length text

/-- The working state of `Parser.parse_raids`: the raid counter, the dict of
finalized raids, and the in-progress `raid_info` and `combact_actions`. -/
structure RaidState where
  raid_cnt : Nat
  list_of_raids : CompiledScript
  raid_info : RaidInfo
  combact_actions : TurnMap
deriving DecidableEq, Repr

/-- The initial working state of `Parser.parse_raids`. -/
def initState : RaidState := ⟨0, [], ⟨none, none, none⟩, []⟩

/-- Lines 104-112 of the source: when a URL was parsed and the in-progress
raid already has a `url`, finalize that raid under the next id and reset the
working fields; in both cases record the new URL. -/
def url_step (st : RaidState) : Option String → RaidState
  | none => st
  | some u =>
    if st.raid_info.url.isSome then
      { raid_cnt := st.raid_cnt + 1
        list_of_raids := dictSet st.list_of_raids (st.raid_cnt + 1)
          ⟨st.raid_info, st.combact_actions⟩
        raid_info := ⟨some u, none, none⟩
        combact_actions := [] }
    else { st with raid_info := { st.raid_info with url := some u } }

/-- Line 114 of the source: record a parsed summon name. -/
def summon_step (st : RaidState) : Option String → RaidState
  | none => st
  | some s => { st with raid_info := { st.raid_info with summon := some s } }

/-- Line 116 of the source: record a parsed repeat count. -/
def repeat_step (st : RaidState) : Option Int → RaidState
  | none => st
  | some r => { st with raid_info := { st.raid_info with «repeat» := some r } }

/-- Line 117 of the source: `combact_actions` is assigned (not merged) the
result of `_parse_combact`. -/
def combact_step (st : RaidState) (ca : TurnMap) : RaidState :=
  { st with combact_actions := ca }

/-- One iteration of the `while len(remain_txt) > 0` loop of
`Parser.parse_raids` (lines 101-121): attempt URL, summon, repeat and
turn-block extraction in order, then unconditionally pop the first line when
nothing was consumed in this cycle. -/
def parse_raids_cycle (remain0 : List String) (st : RaidState) :
    Except PyErr (List String × RaidState) :=
  match _parse_url remain0 with
  | (remain1, url) =>
    let st1 := url_step st url
    match _parse_summon remain1 with
    | (remain2, summon) =>
      let st2 := summon_step st1 summon
      match _parse_repeat remain2 with
      | .error e => .error e
      | .ok (remain3, rep) =>
        let st3 := repeat_step st2 rep
        match _parse_combact remain3 with
        | .error e => .error e
        | .ok (remain4, ca) =>
          let st4 := combact_step st3 ca
          if remain0.length = remain4.length then
            match remain4 with
            | [] => .error .indexError
            | _ :: t => .ok (t, st4)
          else .ok (remain4, st4)

/-- The `while len(remain_txt) > 0` loop of `Parser.parse_raids`.  The fuel
bounds the number of cycles; each cycle strictly decreases the number of
remaining lines, so fuel equal to the initial line count is sufficient. -/
def parse_raids_loop : Nat → List String → RaidState → Except PyErr RaidState
  | _, [], st => .ok st
  | 0, _ :: _, _ => .error .loopFuel
  | fuel + 1, line :: rest, st =>
    match parse_raids_cycle (line :: rest) st with
    | .error e => .error e
    | .ok (remain', st') => parse_raids_loop fuel remain' st'

/-- `Parser.parse_raids`: pre-parse, run the segmenter loop, then finalize the
raid in progress (even an empty one) under the next id. -/
def parse_raids (txt : List String) : Except PyErr CompiledScript :=
  match parse_raids_loop (pre_parse txt).length (pre_parse txt) initState with
  | .error e => .error e
  | .ok st =>
    .ok (dictSet st.list_of_raids (st.raid_cnt + 1) ⟨st.raid_info, st.combact_actions⟩)

end Parser

/-! ## Basic facts about the string and dict primitives -/

theorem isStartOf_self_append (a b : List Char) : isStartOf a (a ++ b) = true := by
  induction a with
  | nil => rfl
  | cons x xs ih => simp [isStartOf, ih]

theorem pySplit_ne_nil (sep : Char) (l : List Char) : pySplit sep l ≠ [] := by
  induction l with
  | nil => simp [pySplit]
  | cons c cs ih =>
    by_cases h : c = sep
    · simp [pySplit, h]
    · simp only [pySplit, if_neg h]
      cases hs : pySplit sep cs with
      | nil => simp
      | cons g gs => simp

theorem pySplit_sep_cons (sep : Char) (a b : List Char) (ha : sep ∉ a) :
    pySplit sep (a ++ sep :: b) = a :: pySplit sep b := by
  induction a with
  | nil => simp [pySplit]
  | cons x xs ih =>
    have hx : x ≠ sep := by intro h; exact ha (by simp [h])
    have ih' := ih (fun h => ha (List.mem_cons_of_mem _ h))
    simp only [List.cons_append, pySplit, if_neg hx, List.append_eq, ih']

theorem pySplit_no_sep (sep : Char) (a : List Char) (ha : sep ∉ a) :
    pySplit sep a = [a] := by
  induction a with
  | nil => rfl
  | cons x xs ih =>
    have hx : x ≠ sep := by intro h; exact ha (by simp [h])
    have ih' := ih (fun h => ha (List.mem_cons_of_mem _ h))
    simp only [pySplit, if_neg hx, ih']

theorem dictGet_dictSet_self {α β : Type} [DecidableEq α] (m : List (α × β)) (k : α) (v : β) :
    dictGet (dictSet m k v) k = some v := by
  induction m with
  | nil => simp [dictSet, dictGet]
  | cons p rest ih =>
    by_cases h : p.1 = k
    · simp [dictSet, dictGet, h]
    · simp [dictSet, dictGet, h, ih]

theorem dictGet_dictSet_ne {α β : Type} [DecidableEq α] (m : List (α × β)) (k k' : α) (v : β)
    (h : k ≠ k') : dictGet (dictSet m k v) k' = dictGet m k' := by
  induction m with
  | nil => simp [dictSet, dictGet, h]
  | cons p rest ih =>
    by_cases hp : p.1 = k
    · simp [dictSet, dictGet, hp, h]
    · simp only [dictSet, if_neg hp]
      by_cases hp' : p.1 = k'
      · simp [dictGet, hp']
      · simp [dictGet, hp', ih]

theorem dictSet_append_of_fresh {α β : Type} [DecidableEq α] (m : List (α × β)) (k : α) (v : β)
    (h : k ∉ m.map Prod.fst) : dictSet m k v = m ++ [(k, v)] := by
  induction m with
  | nil => rfl
  | cons p rest ih =>
    have hp : p.1 ≠ k := by intro hh; exact h (by simp [hh])
    have hr : k ∉ rest.map Prod.fst := fun hh => h (by simp [hh])
    simp [dictSet, hp, ih hr]

/-! ## Whitespace and case normalization -/

theorem length_dropWhile_le' (p : Char → Bool) (l : List Char) :
    (l.dropWhile p).length ≤ l.length := by
  induction l with
  | nil => simp [List.dropWhile]
  | cons c cs ih =>
    rw [List.dropWhile_cons]
    cases h : p c
    · simp
    · simp only [if_pos rfl, List.length_cons]
      exact le_trans ih (Nat.le_succ _)

theorem dropWhile_idem (p : Char → Bool) (l : List Char) :
    (l.dropWhile p).dropWhile p = l.dropWhile p := by
  induction l with
  | nil => rfl
  | cons c cs ih =>
    simp only [List.dropWhile]
    cases h : p c
    · simp [List.dropWhile, h]
    · simpa using ih

theorem dropWhile_split (p : Char → Bool) (l : List Char) :
    ∃ t, l = t ++ l.dropWhile p := by
  induction l with
  | nil => exact ⟨[], rfl⟩
  | cons c cs ih =>
    cases h : p c
    · exact ⟨[], by simp [List.dropWhile, h]⟩
    · obtain ⟨t, ht⟩ := ih
      exact ⟨c :: t, by simp only [List.dropWhile, h]; simpa using ht⟩

theorem dropWhile_of_clean_front (p : Char → Bool) (y z : List Char)
    (hy : y.dropWhile p = y) (hz : ∃ t, y = z ++ t) : z.dropWhile p = z := by
  obtain ⟨t, rfl⟩ := hz
  cases z with
  | nil => rfl
  | cons c z' =>
    have hc : p c = false := by
      cases h : p c
      · rfl
      · exfalso
        rw [List.cons_append, List.dropWhile_cons, h, if_pos rfl] at hy
        have hle := length_dropWhile_le' p (z' ++ t)
        have hlen := congrArg List.length hy
        rw [List.length_cons] at hlen
        omega
    simp [List.dropWhile, hc]

theorem rstripL_front (l : List Char) : ∃ t, l = rstripL l ++ t := by
  obtain ⟨t, ht⟩ := dropWhile_split pyIsSpace l.reverse
  refine ⟨t.reverse, ?_⟩
  have := congrArg List.reverse ht
  simpa [rstripL] using this

theorem lstripL_rstripL_lstripL (l : List Char) :
    lstripL (rstripL (lstripL l)) = rstripL (lstripL l) := by
  apply dropWhile_of_clean_front pyIsSpace (lstripL l)
  · exact dropWhile_idem pyIsSpace l
  · exact rstripL_front (lstripL l)

theorem rstripL_idem (l : List Char) : rstripL (rstripL l) = rstripL l := by
  simp [rstripL, dropWhile_idem]

theorem stripL_idem (l : List Char) : stripL (stripL l) = stripL l := by
  unfold stripL
  rw [lstripL_rstripL_lstripL, rstripL_idem]

theorem lookup_pair_mem {t : List (Char × Char)} {c l : Char} (h : t.lookup c = some l) :
    (c, l) ∈ t := by
  induction t with
  | nil => simp [List.lookup] at h
  | cons p rest ih =>
    rw [List.lookup] at h
    by_cases hc : c = p.1
    · have : (c == p.1) = true := by simp [hc]
      rw [this] at h
      cases h
      rw [hc]
      exact List.mem_cons_self _ _
    · have : (c == p.1) = false := by simp [hc]
      rw [this] at h
      exact List.mem_cons_of_mem _ (ih h)

theorem pyToLower_space (c : Char) : pyIsSpace (pyToLower c) = pyIsSpace c := by
  unfold pyToLower
  cases h : ucTable.lookup c with
  | none => rfl
  | some l =>
    have hm := lookup_pair_mem h
    have hall : ∀ p ∈ ucTable, pyIsSpace p.1 = false ∧ pyIsSpace p.2 = false := by decide
    obtain ⟨h1, h2⟩ := hall _ hm
    simp only at h1 h2
    rw [h1, h2]

theorem pyToLower_idem (c : Char) : pyToLower (pyToLower c) = pyToLower c := by
  cases h : ucTable.lookup c with
  | none => simp [pyToLower, h]
  | some l =>
    have hall : ∀ p ∈ ucTable, ucTable.lookup p.2 = none := by decide
    have hl := hall _ (lookup_pair_mem h)
    simp only at hl
    simp [pyToLower, h, hl]

theorem dropWhile_map_comp (f : Char → Char) (p : Char → Bool) (l : List Char) :
    (l.map f).dropWhile p = (l.dropWhile fun c => p (f c)).map f := by
  induction l with
  | nil => rfl
  | cons c cs ih =>
    simp only [List.map_cons, List.dropWhile_cons]
    cases h : p (f c)
    · simp [h]
    · simp [h, ih]

theorem pyIsSpace_comp_pyToLower : (fun c => pyIsSpace (pyToLower c)) = pyIsSpace :=
  funext pyToLower_space

theorem lstripL_map_lower (l : List Char) :
    lstripL (l.map pyToLower) = (lstripL l).map pyToLower := by
  rw [lstripL, lstripL, dropWhile_map_comp, pyIsSpace_comp_pyToLower]

theorem rstripL_map_lower (l : List Char) :
    rstripL (l.map pyToLower) = (rstripL l).map pyToLower := by
  rw [rstripL, rstripL, ← List.map_reverse, dropWhile_map_comp, pyIsSpace_comp_pyToLower,
    List.map_reverse]

theorem stripL_map_lower (l : List Char) :
    stripL (l.map pyToLower) = (stripL l).map pyToLower := by
  rw [stripL, stripL, lstripL_map_lower, rstripL_map_lower]

theorem pyLower_idem (s : String) : pyLower (pyLower s) = pyLower s := by
  simp only [pyLower, List.map_map]
  congr 1
  apply List.map_congr_left
  intro c _
  exact pyToLower_idem c

theorem normalized_strip (s : String) : pyStrip (pyLower (pyStrip s)) = pyLower (pyStrip s) := by
  simp only [pyStrip, pyLower, stripL_map_lower, stripL_idem]

theorem normalized_lstrip (s : String) : pyLstrip (pyLower (pyStrip s)) = pyLower (pyStrip s) := by
  simp only [pyLstrip, pyLower, pyStrip, lstripL_map_lower]
  rw [show stripL s.data = rstripL (lstripL s.data) from rfl, lstripL_rstripL_lstripL]

/-- The drop condition of `Parser.pre_parse`, evaluated on the stripped and
lower-cased line. -/
def dropCond (line : String) : Prop :=
  line = "" ∨ pyStartsWith line "#" = true ∨ pyStartsWith line "/" = true

instance (line : String) : Decidable (dropCond line) := by
  unfold dropCond
  infer_instance

theorem pre_parse_eq_filterMap (text : List String) :
    Parser.pre_parse text = text.filterMap fun raw =>
      if dropCond (pyLower (pyStrip raw)) then none else some (pyLower (pyStrip raw)) := by
  unfold Parser.pre_parse
  rw [List.filterMap_map]
  apply List.filterMap_congr
  intro raw _
  simp only [dropCond]
  by_cases h : pyLower (pyStrip raw) = "" ∨ pyStartsWith (pyLower (pyStrip raw)) "#" = true ∨
      pyStartsWith (pyLower (pyStrip raw)) "/" = true
  · simp [h]
  · simp [h, normalized_lstrip]

theorem pre_parse_idem (text : List String) :
    Parser.pre_parse (Parser.pre_parse text) = Parser.pre_parse text := by
  rw [pre_parse_eq_filterMap text, pre_parse_eq_filterMap, List.filterMap_filterMap]
  apply List.filterMap_congr
  intro raw _
  by_cases h : dropCond (pyLower (pyStrip raw))
  · simp [h]
  · have hs : pyStrip (pyLower (pyStrip raw)) = pyLower (pyStrip raw) := normalized_strip raw
    have hl : pyLower (pyLower (pyStrip raw)) = pyLower (pyStrip raw) := pyLower_idem _
    simp only [if_neg h, Option.some_bind]
    rw [hs, hl, if_neg h]

theorem _parse_turn_lines_suffix (l : List String) :
    ∀ (sel : Bool) (rem : List String) (acts : List ScriptAction),
      Parser._parse_turn_lines l sel = .ok (rem, acts) → rem <:+ l := by
  induction l with
  | nil =>
    intro sel rem acts h
    simp only [Parser._parse_turn_lines] at h
    cases h
    exact List.nil_suffix
  | cons line rest ih =>
    intro sel rem acts h
    simp only [Parser._parse_turn_lines] at h
    repeat' split at h
    all_goals cases h
    all_goals try exact List.suffix_cons line rest
    all_goals
      rename_i heq
    all_goals exact (ih _ _ _ heq).trans (List.suffix_cons line rest)

theorem _parse_turn_consumes (text : List String) (rem : List String) (turn : Int)
    (acts : List ScriptAction) (h : Parser._parse_turn text = .ok (rem, turn, acts)) :
    rem <:+ text ∧ rem.length < text.length := by
  cases text with
  | nil => simp [Parser._parse_turn] at h
  | cons line rest =>
    simp only [Parser._parse_turn] at h
    repeat' split at h
    all_goals cases h
    rename_i heq
    have hs := _parse_turn_lines_suffix rest false _ _ heq
    constructor
    · exact hs.trans (List.suffix_cons line rest)
    · have := hs.length_le
      simp only [List.length_cons]
      omega

theorem _parse_combact_loop_suffix :
    ∀ (fuel : Nat) (remain : List String) (acc : TurnMap) (rem : List String) (m : TurnMap),
      Parser._parse_combact_loop fuel remain acc = .ok (rem, m) → rem <:+ remain := by
  intro fuel
  induction fuel with
  | zero =>
    intro remain acc rem m h
    cases remain with
    | nil => simp only [Parser._parse_combact_loop] at h; cases h; exact List.nil_suffix
    | cons line rest =>
      simp only [Parser._parse_combact_loop] at h
      cases h
  | succ n ih =>
    intro remain acc rem m h
    cases remain with
    | nil => simp only [Parser._parse_combact_loop] at h; cases h; exact List.nil_suffix
    | cons line rest =>
      simp only [Parser._parse_combact_loop] at h
      split at h
      · split at h
        · cases h
        · rename_i heq
          have ht := (_parse_turn_consumes _ _ _ _ heq).1
          exact (ih _ _ _ _ h).trans ht
      · cases h
        exact List.suffix_refl _

theorem _parse_combact_suffix (text rem : List String) (m : TurnMap)
    (h : Parser._parse_combact text = .ok (rem, m)) : rem <:+ text := by
  unfold Parser._parse_combact at h
  split at h
  · cases h
    exact List.suffix_refl _
  · exact _parse_combact_loop_suffix _ _ _ _ _ h

theorem _parse_url_suffix (txt r : List String) (u : Option String)
    (h : Parser._parse_url txt = (r, u)) : r <:+ txt := by
  cases txt with
  | nil => cases h; exact List.suffix_refl _
  | cons l rest =>
    simp only [Parser._parse_url] at h
    split at h
    · cases h; exact List.suffix_cons _ _
    · cases h; exact List.suffix_refl _

theorem _parse_summon_suffix (txt r : List String) (u : Option String)
    (h : Parser._parse_summon txt = (r, u)) : r <:+ txt := by
  cases txt with
  | nil => cases h; exact List.suffix_refl _
  | cons l rest =>
    simp only [Parser._parse_summon] at h
    split at h
    · cases h; exact List.suffix_cons _ _
    · cases h; exact List.suffix_refl _

theorem _parse_repeat_suffix (txt r : List String) (u : Option Int)
    (h : Parser._parse_repeat txt = .ok (r, u)) : r <:+ txt := by
  cases txt with
  | nil => cases h; exact List.suffix_refl _
  | cons l rest =>
    simp only [Parser._parse_repeat] at h
    repeat' split at h
    all_goals cases h
    · exact List.suffix_cons _ _
    · exact List.suffix_refl _

theorem parse_raids_cycle_consumes (remain : List String) (st : Parser.RaidState)
    (r' : List String) (st' : Parser.RaidState)
    (h : Parser.parse_raids_cycle remain st = .ok (r', st')) :
    r' <:+ remain ∧ r'.length < remain.length := by
  unfold Parser.parse_raids_cycle at h
  rcases hu : Parser._parse_url remain with ⟨r1, url⟩
  rw [hu] at h
  dsimp only at h
  rcases hs : Parser._parse_summon r1 with ⟨r2, summon⟩
  rw [hs] at h
  dsimp only at h
  cases hr : Parser._parse_repeat r2 with
  | error e => rw [hr] at h; cases h
  | ok pr =>
    rcases pr with ⟨r3, rep⟩
    rw [hr] at h
    dsimp only at h
    cases hc : Parser._parse_combact r3 with
    | error e => rw [hc] at h; cases h
    | ok pc =>
      rcases pc with ⟨r4, ca⟩
      rw [hc] at h
      dsimp only at h
      have chain : r4 <:+ remain :=
        ((_parse_combact_suffix _ _ _ hc).trans (_parse_repeat_suffix _ _ _ hr)).trans
          ((_parse_summon_suffix _ _ _ hs).trans (_parse_url_suffix _ _ _ hu))
      split at h
      · rename_i hlen
        cases hr4 : r4 with
        | nil => rw [hr4] at h; cases h
        | cons x t4 =>
          rw [hr4] at h
          rw [hr4] at chain hlen
          cases h
          constructor
          · exact (List.suffix_cons _ _).trans chain
          · have := chain.length_le
            simp only [List.length_cons] at hlen this
            omega
      · rename_i hlen
        cases h
        constructor
        · exact chain
        · have := chain.length_le
          omega

theorem pyCharNeg1_ne_loopFuel (s : String) : pyCharNeg1 s ≠ .error .loopFuel := by
  unfold pyCharNeg1
  split <;> simp

theorem pyCharNeg2_ne_loopFuel (s : String) : pyCharNeg2 s ≠ .error .loopFuel := by
  unfold pyCharNeg2
  split <;> simp

theorem pyIntCore_ne_loopFuel (ds : List Char) : pyIntCore ds ≠ .error .loopFuel := by
  unfold pyIntCore
  split <;> simp

theorem pyInt_ne_loopFuel (s : String) : pyInt s ≠ .error .loopFuel := by
  unfold pyInt
  split
  · exact pyIntCore_ne_loopFuel _
  · split
    · simp
    · rename_i heq
      intro h
      injection h with h'
      rw [h'] at heq
      exact pyIntCore_ne_loopFuel _ heq
  · exact pyIntCore_ne_loopFuel _

theorem pyIntChar_ne_loopFuel (c : Char) : pyIntChar c ≠ .error .loopFuel :=
  pyInt_ne_loopFuel _

theorem _parse_character_cmds_ne_loopFuel (l : List String) :
    ∀ sel : Bool, Parser._parse_character_cmds l sel ≠ .error .loopFuel := by
  induction l with
  | nil => intro sel h; simp [Parser._parse_character_cmds] at h
  | cons cmd rest ih =>
    intro sel h
    simp only [Parser._parse_character_cmds] at h
    repeat' split at h
    all_goals first
      | (exact Except.noConfusion h)
      | (exact ih _ h)
      | (cases h <;>
         (rename_i heq
          first
           | exact pyCharNeg2_ne_loopFuel _ heq
           | exact pyIntChar_ne_loopFuel _ heq
           | exact ih _ heq))

theorem _parse_character_ne_loopFuel (line : String) (sel : Bool) :
    Parser._parse_character line sel ≠ .error .loopFuel := by
  intro h
  unfold Parser._parse_character at h
  repeat' split at h
  all_goals first
    | (exact Except.noConfusion h)
    | (cases h <;>
       (rename_i heq
        first
         | exact pyCharNeg1_ne_loopFuel _ heq
         | exact pyIntChar_ne_loopFuel _ heq
         | exact _parse_character_cmds_ne_loopFuel _ _ heq))

theorem _parse_turn_lines_ne_loopFuel (l : List String) :
    ∀ sel : Bool, Parser._parse_turn_lines l sel ≠ .error .loopFuel := by
  induction l with
  | nil => intro sel h; simp [Parser._parse_turn_lines] at h
  | cons line rest ih =>
    intro sel h
    simp only [Parser._parse_turn_lines] at h
    repeat' split at h
    all_goals first
      | (exact Except.noConfusion h)
      | (exact ih _ h)
      | (cases h <;>
         (rename_i heq
          first
           | exact _parse_character_ne_loopFuel _ _ heq
           | exact pyCharNeg2_ne_loopFuel _ heq
           | exact pyIntChar_ne_loopFuel _ heq
           | exact pyInt_ne_loopFuel _ heq
           | exact ih _ heq))

theorem _parse_turn_ne_loopFuel (text : List String) :
    Parser._parse_turn text ≠ .error .loopFuel := by
  intro h
  unfold Parser._parse_turn at h
  repeat' split at h
  all_goals first
    | (exact Except.noConfusion h)
    | (cases h <;>
       (rename_i heq
        first
         | exact pyCharNeg2_ne_loopFuel _ heq
         | exact pyIntChar_ne_loopFuel _ heq
         | exact _parse_turn_lines_ne_loopFuel _ _ heq))

theorem _parse_combact_loop_ne_loopFuel :
    ∀ (fuel : Nat) (remain : List String) (acc : TurnMap), remain.length ≤ fuel →
      Parser._parse_combact_loop fuel remain acc ≠ .error .loopFuel := by
  intro fuel
  induction fuel with
  | zero =>
    intro remain acc hlen h
    cases remain with
    | nil => simp [Parser._parse_combact_loop] at h
    | cons line rest => simp at hlen
  | succ n ih =>
    intro remain acc hlen h
    cases remain with
    | nil => simp [Parser._parse_combact_loop] at h
    | cons line rest =>
      simp only [Parser._parse_combact_loop] at h
      split at h
      · split at h
        · cases h
          rename_i heq
          exact _parse_turn_ne_loopFuel _ heq
        · rename_i heq
          have := (_parse_turn_consumes _ _ _ _ heq).2
          simp only [List.length_cons] at this hlen
          exact ih _ _ (by omega) h
      · exact Except.noConfusion h

theorem _parse_combact_ne_loopFuel (text : List String) :
    Parser._parse_combact text ≠ .error .loopFuel := by
  unfold Parser._parse_combact
  split
  · simp
  · exact _parse_combact_loop_ne_loopFuel _ _ _ (Nat.le_refl _)

theorem _parse_repeat_ne_loopFuel (txt : List String) :
    Parser._parse_repeat txt ≠ .error .loopFuel := by
  intro h
  unfold Parser._parse_repeat at h
  repeat' split at h
  all_goals first
    | (exact Except.noConfusion h)
    | (cases h <;>
       (rename_i heq
        first
         | exact pyCharNeg1_ne_loopFuel _ heq
         | exact pyIntChar_ne_loopFuel _ heq))

theorem parse_raids_cycle_ne_loopFuel (remain : List String) (st : Parser.RaidState) :
    Parser.parse_raids_cycle remain st ≠ .error .loopFuel := by
  intro h
  unfold Parser.parse_raids_cycle at h
  rcases hu : Parser._parse_url remain with ⟨r1, url⟩
  rw [hu] at h
  dsimp only at h
  rcases hs : Parser._parse_summon r1 with ⟨r2, summon⟩
  rw [hs] at h
  dsimp only at h
  cases hr : Parser._parse_repeat r2 with
  | error e =>
    rw [hr] at h
    cases h
    exact _parse_repeat_ne_loopFuel _ hr
  | ok pr =>
    rcases pr with ⟨r3, rep⟩
    rw [hr] at h
    dsimp only at h
    cases hc : Parser._parse_combact r3 with
    | error e =>
      rw [hc] at h
      cases h
      exact _parse_combact_ne_loopFuel _ hc
    | ok pc =>
      rcases pc with ⟨r4, ca⟩
      rw [hc] at h
      dsimp only at h
      split at h
      · cases hr4 : r4 with
        | nil => rw [hr4] at h; simp at h
        | cons x t4 => rw [hr4] at h; exact Except.noConfusion h
      · exact Except.noConfusion h

theorem parse_raids_loop_ne_loopFuel :
    ∀ (fuel : Nat) (remain : List String) (st : Parser.RaidState), remain.length ≤ fuel →
      Parser.parse_raids_loop fuel remain st ≠ .error .loopFuel := by
  intro fuel
  induction fuel with
  | zero =>
    intro remain st hlen h
    cases remain with
    | nil => simp [Parser.parse_raids_loop] at h
    | cons line rest => simp at hlen
  | succ n ih =>
    intro remain st hlen h
    cases remain with
    | nil => simp [Parser.parse_raids_loop] at h
    | cons line rest =>
      simp only [Parser.parse_raids_loop] at h
      split at h
      · rename_i heq
        cases h
        exact parse_raids_cycle_ne_loopFuel _ _ heq
      · rename_i heq
        have := (parse_raids_cycle_consumes _ _ _ _ heq).2
        simp only [List.length_cons] at this hlen
        exact ih _ _ (by omega) h

/-- The fuel artifact of the embedding never fires: `Parser.parse_raids` never
reports fuel exhaustion, because every segmenter cycle consumes at least one
line.  This mirrors the source's guaranteed termination on arbitrary input. -/
theorem parse_raids_ne_loopFuel (txt : List String) :
    Parser.parse_raids txt ≠ .error .loopFuel := by
  intro h
  unfold Parser.parse_raids at h
  split at h
  · rename_i heq
    cases h
    exact parse_raids_loop_ne_loopFuel _ _ _ (Nat.le_refl _) heq
  · exact Except.noConfusion h

theorem range'_concat_one (n : Nat) : List.range' 1 n ++ [n + 1] = List.range' 1 (n + 1) := by
  have := @List.range'_concat 1 1 n
  simp only [Nat.one_mul] at this
  rw [this, Nat.add_comm 1 n]

theorem succ_not_mem_range' (n : Nat) : (n + 1) ∉ List.range' 1 n := by
  intro h
  rw [List.mem_range'] at h
  obtain ⟨i, hi, hm⟩ := h
  omega

theorem url_step_keys (st : Parser.RaidState) (url : Option String)
    (h : st.list_of_raids.map Prod.fst = List.range' 1 st.raid_cnt) :
    (Parser.url_step st url).list_of_raids.map Prod.fst =
      List.range' 1 (Parser.url_step st url).raid_cnt := by
  cases url with
  | none => exact h
  | some u =>
    have hfresh : (st.raid_cnt + 1) ∉ st.list_of_raids.map Prod.fst := by
      rw [h]; exact succ_not_mem_range' _
    unfold Parser.url_step
    dsimp only
    cases hcase : st.raid_info.url.isSome
    · simpa using h
    · rw [if_pos rfl]
      simp only [dictSet_append_of_fresh _ _ _ hfresh, List.map_append, List.map_cons,
        List.map_nil, h]
      exact range'_concat_one _

theorem summon_step_preserves (st : Parser.RaidState) (x : Option String) :
    (Parser.summon_step st x).list_of_raids = st.list_of_raids ∧
      (Parser.summon_step st x).raid_cnt = st.raid_cnt ∧
      (Parser.summon_step st x).combact_actions = st.combact_actions := by
  cases x <;> simp [Parser.summon_step]

theorem repeat_step_preserves (st : Parser.RaidState) (x : Option Int) :
    (Parser.repeat_step st x).list_of_raids = st.list_of_raids ∧
      (Parser.repeat_step st x).raid_cnt = st.raid_cnt ∧
      (Parser.repeat_step st x).combact_actions = st.combact_actions := by
  cases x <;> simp [Parser.repeat_step]

theorem combact_step_preserves (st : Parser.RaidState) (ca : TurnMap) :
    (Parser.combact_step st ca).list_of_raids = st.list_of_raids ∧
      (Parser.combact_step st ca).raid_cnt = st.raid_cnt := by
  simp [Parser.combact_step]

theorem parse_raids_cycle_state (remain : List String) (st : Parser.RaidState)
    (r' : List String) (st' : Parser.RaidState)
    (h : Parser.parse_raids_cycle remain st = .ok (r', st')) :
    ∃ url summon rep ca,
      st' = Parser.combact_step
        (Parser.repeat_step (Parser.summon_step (Parser.url_step st url) summon) rep) ca := by
  unfold Parser.parse_raids_cycle at h
  rcases hu : Parser._parse_url remain with ⟨r1, url⟩
  rw [hu] at h
  dsimp only at h
  rcases hs : Parser._parse_summon r1 with ⟨r2, summon⟩
  rw [hs] at h
  dsimp only at h
  cases hr : Parser._parse_repeat r2 with
  | error e => rw [hr] at h; cases h
  | ok pr =>
    rcases pr with ⟨r3, rep⟩
    rw [hr] at h
    dsimp only at h
    cases hc : Parser._parse_combact r3 with
    | error e => rw [hc] at h; cases h
    | ok pc =>
      rcases pc with ⟨r4, ca⟩
      rw [hc] at h
      dsimp only at h
      refine ⟨url, summon, rep, ca, ?_⟩
      split at h
      · cases hr4 : r4 with
        | nil => rw [hr4] at h; cases h
        | cons x t4 => rw [hr4] at h; cases h; rfl
      · cases h; rfl

theorem parse_raids_cycle_keys (remain : List String) (st : Parser.RaidState)
    (r' : List String) (st' : Parser.RaidState)
    (h : Parser.parse_raids_cycle remain st = .ok (r', st'))
    (hk : st.list_of_raids.map Prod.fst = List.range' 1 st.raid_cnt) :
    st'.list_of_raids.map Prod.fst = List.range' 1 st'.raid_cnt := by
  obtain ⟨url, summon, rep, ca, rfl⟩ := parse_raids_cycle_state _ _ _ _ h
  have h1 := url_step_keys st url hk
  have h2 := summon_step_preserves (Parser.url_step st url) summon
  have h3 := repeat_step_preserves (Parser.summon_step (Parser.url_step st url) summon) rep
  have h4 := combact_step_preserves
    (Parser.repeat_step (Parser.summon_step (Parser.url_step st url) summon) rep) ca
  rw [h4.1, h4.2, h3.1, h3.2.1, h2.1, h2.2.1]
  exact h1

theorem parse_raids_loop_keys :
    ∀ (fuel : Nat) (remain : List String) (st : Parser.RaidState) (st' : Parser.RaidState),
      Parser.parse_raids_loop fuel remain st = .ok st' →
      st.list_of_raids.map Prod.fst = List.range' 1 st.raid_cnt →
      st'.list_of_raids.map Prod.fst = List.range' 1 st'.raid_cnt := by
  intro fuel
  induction fuel with
  | zero =>
    intro remain st st' h hk
    cases remain with
    | nil => simp only [Parser.parse_raids_loop] at h; cases h; exact hk
    | cons line rest => simp only [Parser.parse_raids_loop] at h; cases h
  | succ n ih =>
    intro remain st st' h hk
    cases remain with
    | nil => simp only [Parser.parse_raids_loop] at h; cases h; exact hk
    | cons line rest =>
      simp only [Parser.parse_raids_loop] at h
      split at h
      · cases h
      · rename_i heq
        exact ih _ _ _ h (parse_raids_cycle_keys _ _ _ _ heq hk)

theorem parse_raids_cycle_nourl (remain : List String) (st : Parser.RaidState)
    (r' : List String) (st' : Parser.RaidState)
    (hhttp : ∀ l ∈ remain, pyStartsWith l "http" = false)
    (h : Parser.parse_raids_cycle remain st = .ok (r', st')) :
    st'.raid_cnt = st.raid_cnt ∧ st'.list_of_raids = st.list_of_raids := by
  cases remain with
  | nil => cases h
  | cons l rest =>
    have hu : Parser._parse_url (l :: rest) = (l :: rest, none) := by
      simp [Parser._parse_url, hhttp l (List.mem_cons_self _ _)]
    unfold Parser.parse_raids_cycle at h
    rw [hu] at h
    dsimp only [Parser.url_step] at h
    rcases hs : Parser._parse_summon (l :: rest) with ⟨r2, summon⟩
    rw [hs] at h
    dsimp only at h
    cases hr : Parser._parse_repeat r2 with
    | error e => rw [hr] at h; cases h
    | ok pr =>
      rcases pr with ⟨r3, rep⟩
      rw [hr] at h
      dsimp only at h
      cases hc : Parser._parse_combact r3 with
      | error e => rw [hc] at h; cases h
      | ok pc =>
        rcases pc with ⟨r4, ca⟩
        rw [hc] at h
        dsimp only at h
        have hfin : ∀ stf : Parser.RaidState,
            stf = Parser.combact_step (Parser.repeat_step (Parser.summon_step st summon) rep) ca →
            stf.raid_cnt = st.raid_cnt ∧ stf.list_of_raids = st.list_of_raids := by
          intro stf hstf
          have h2 := summon_step_preserves st summon
          have h3 := repeat_step_preserves (Parser.summon_step st summon) rep
          have h4 := combact_step_preserves (Parser.repeat_step (Parser.summon_step st summon) rep) ca
          rw [hstf]
          constructor
          · rw [h4.2, h3.2.1, h2.2.1]
          · rw [h4.1, h3.1, h2.1]
        split at h
        · cases hr4 : r4 with
          | nil => rw [hr4] at h; cases h
          | cons x t4 => rw [hr4] at h; cases h; exact hfin _ rfl
        · cases h; exact hfin _ rfl

theorem parse_raids_loop_nourl :
    ∀ (fuel : Nat) (remain : List String) (st : Parser.RaidState) (st' : Parser.RaidState),
      (∀ l ∈ remain, pyStartsWith l "http" = false) →
      Parser.parse_raids_loop fuel remain st = .ok st' →
      st'.raid_cnt = st.raid_cnt ∧ st'.list_of_raids = st.list_of_raids := by
  intro fuel
  induction fuel with
  | zero =>
    intro remain st st' hhttp h
    cases remain with
    | nil => simp only [Parser.parse_raids_loop] at h; cases h; exact ⟨rfl, rfl⟩
    | cons line rest => simp only [Parser.parse_raids_loop] at h; cases h
  | succ n ih =>
    intro remain st st' hhttp h
    cases remain with
    | nil => simp only [Parser.parse_raids_loop] at h; cases h; exact ⟨rfl, rfl⟩
    | cons line rest =>
      simp only [Parser.parse_raids_loop] at h
      split at h
      · cases h
      · rename_i heq
        have hsub := (parse_raids_cycle_consumes _ _ _ _ heq).1.sublist.subset
        have hcyc := parse_raids_cycle_nourl _ _ _ _ hhttp heq
        have hrest := ih _ _ _ (fun l hl => hhttp l (hsub hl)) h
        exact ⟨hrest.1.trans hcyc.1, hrest.2.trans hcyc.2⟩

theorem parse_raids_cycle_decomp (remain : List String) (st : Parser.RaidState)
    (r' : List String) (st' : Parser.RaidState)
    (h : Parser.parse_raids_cycle remain st = .ok (r', st')) :
    ∃ r1 url r2 summon r3 rep r4 ca,
      Parser._parse_url remain = (r1, url) ∧
      Parser._parse_summon r1 = (r2, summon) ∧
      Parser._parse_repeat r2 = .ok (r3, rep) ∧
      Parser._parse_combact r3 = .ok (r4, ca) ∧
      st' = Parser.combact_step
        (Parser.repeat_step (Parser.summon_step (Parser.url_step st url) summon) rep) ca ∧
      ((remain.length = r4.length ∧ ∃ x, r4 = x :: r') ∨
        (remain.length ≠ r4.length ∧ r' = r4)) := by
  unfold Parser.parse_raids_cycle at h
  rcases hu : Parser._parse_url remain with ⟨r1, url⟩
  rw [hu] at h
  dsimp only at h
  rcases hs : Parser._parse_summon r1 with ⟨r2, summon⟩
  rw [hs] at h
  dsimp only at h
  cases hr : Parser._parse_repeat r2 with
  | error e => rw [hr] at h; cases h
  | ok pr =>
    rcases pr with ⟨r3, rep⟩
    rw [hr] at h
    dsimp only at h
    cases hc : Parser._parse_combact r3 with
    | error e => rw [hc] at h; cases h
    | ok pc =>
      rcases pc with ⟨r4, ca⟩
      rw [hc] at h
      dsimp only at h
      split at h
      · rename_i hlen
        cases r4 with
        | nil => cases h
        | cons x t4 =>
          cases h
          exact ⟨r1, url, r2, summon, r3, rep, _, ca, rfl, hs, hr, hc, rfl,
            Or.inl ⟨hlen, _, rfl⟩⟩
      · rename_i hlen
        cases h
        exact ⟨r1, url, r2, summon, r3, rep, _, ca, rfl, hs, hr, hc, rfl,
          Or.inr ⟨hlen, rfl⟩⟩

theorem url_step_indep (st : Parser.RaidState) (A B : TurnMap) (url : Option String) :
    (Parser.url_step { st with combact_actions := A } url).raid_info =
      (Parser.url_step { st with combact_actions := B } url).raid_info ∧
    (Parser.url_step { st with combact_actions := A } url).raid_cnt =
      (Parser.url_step { st with combact_actions := B } url).raid_cnt := by
  cases url with
  | none => exact ⟨rfl, rfl⟩
  | some u =>
    by_cases hcase : st.raid_info.url.isSome = true <;>
      simp [Parser.url_step, hcase]

theorem summon_step_congr (s1 s2 : Parser.RaidState) (x : Option String)
    (hinfo : s1.raid_info = s2.raid_info) (hcnt : s1.raid_cnt = s2.raid_cnt) :
    (Parser.summon_step s1 x).raid_info = (Parser.summon_step s2 x).raid_info ∧
    (Parser.summon_step s1 x).raid_cnt = (Parser.summon_step s2 x).raid_cnt := by
  cases x <;> simp [Parser.summon_step, hinfo, hcnt]

theorem repeat_step_congr (s1 s2 : Parser.RaidState) (x : Option Int)
    (hinfo : s1.raid_info = s2.raid_info) (hcnt : s1.raid_cnt = s2.raid_cnt) :
    (Parser.repeat_step s1 x).raid_info = (Parser.repeat_step s2 x).raid_info ∧
    (Parser.repeat_step s1 x).raid_cnt = (Parser.repeat_step s2 x).raid_cnt := by
  cases x <;> simp [Parser.repeat_step, hinfo, hcnt]

theorem cycle_combact_replaced (remain : List String) (st : Parser.RaidState)
    (A B : TurnMap) (r1 r2 : List String) (s1 s2 : Parser.RaidState)
    (h1 : Parser.parse_raids_cycle remain { st with combact_actions := A } = .ok (r1, s1))
    (h2 : Parser.parse_raids_cycle remain { st with combact_actions := B } = .ok (r2, s2)) :
    r1 = r2 ∧ s1.combact_actions = s2.combact_actions ∧ s1.raid_info = s2.raid_info ∧
      s1.raid_cnt = s2.raid_cnt := by
  obtain ⟨a1, url1, a2, summon1, a3, rep1, a4, ca1, e1, e2, e3, e4, e5, e6⟩ :=
    parse_raids_cycle_decomp _ _ _ _ h1
  obtain ⟨b1, url2, b2, summon2, b3, rep2, b4, ca2, f1, f2, f3, f4, f5, f6⟩ :=
    parse_raids_cycle_decomp _ _ _ _ h2
  rw [e1] at f1
  injection f1 with g1 g2
  subst g1; subst g2
  rw [e2] at f2
  injection f2 with g3 g4
  subst g3; subst g4
  rw [e3] at f3
  injection f3 with g5
  injection g5 with g5a g5b
  subst g5a; subst g5b
  rw [e4] at f4
  injection f4 with g6
  injection g6 with g6a g6b
  subst g6a; subst g6b
  have hstep := url_step_indep st A B url1
  have hsum := summon_step_congr _ _ summon1 hstep.1 hstep.2
  have hrep := repeat_step_congr _ _ rep1 hsum.1 hsum.2
  have hfields : s1.combact_actions = s2.combact_actions ∧ s1.raid_info = s2.raid_info ∧
      s1.raid_cnt = s2.raid_cnt := by
    rw [e5, f5]
    exact ⟨rfl, hrep.1, hrep.2⟩
  refine ⟨?_, hfields⟩
  rcases e6 with ⟨hlen, x1, hx1⟩ | ⟨hlen, hr1⟩
  · rcases f6 with ⟨hlen', x2, hx2⟩ | ⟨hlen', hr2⟩
    · rw [hx1] at hx2
      have h' := congrArg List.tail hx2
      simpa using h'
    · exact absurd hlen hlen'
  · rcases f6 with ⟨hlen', x2, hx2⟩ | ⟨hlen', hr2⟩
    · exact absurd hlen' hlen
    · rw [hr1, hr2]

theorem _parse_combact_loop_trace :
    ∀ (fuel : Nat) (remain : List String) (acc : TurnMap),
      Parser._parse_combact_loop fuel remain acc =
        match Parser._parse_combact_trace_loop fuel remain with
        | .error e => .error e
        | .ok (r, ps) => .ok (r, ps.foldl (fun d p => dictSet d p.1 p.2) acc) := by
  intro fuel
  induction fuel with
  | zero =>
    intro remain acc
    cases remain with
    | nil => rfl
    | cons line rest => rfl
  | succ n ih =>
    intro remain acc
    cases remain with
    | nil => rfl
    | cons line rest =>
      simp only [Parser._parse_combact_loop, Parser._parse_combact_trace_loop]
      split
      · cases ht : Parser._parse_turn (line :: rest) with
        | error e => rfl
        | ok pt =>
          rcases pt with ⟨rem, turns, actions⟩
          dsimp only
          rw [ih]
          cases Parser._parse_combact_trace_loop n rem with
          | error e => rfl
          | ok pr => rcases pr with ⟨rem', ps⟩; rfl
      · rfl

theorem dictGet_foldl_dictSet (ps : List (Int × List ScriptAction)) :
    ∀ (acc : TurnMap) (t : Int),
      dictGet (ps.foldl (fun d p => dictSet d p.1 p.2) acc) t =
        match (ps.filter fun p => p.1 == t).getLast? with
        | some q => some q.2
        | none => dictGet acc t := by
  induction ps using List.reverseRecOn with
  | nil => intro acc t; rfl
  | append_singleton ps p ih =>
    intro acc t
    rw [List.foldl_append]
    simp only [List.foldl_cons, List.foldl_nil]
    by_cases hp : p.1 = t
    · rw [List.filter_append]
      simp only [List.filter_cons, List.filter_nil, hp, beq_self_eq_true, if_pos,
        List.getLast?_append]
      rw [dictGet_dictSet_self]
      simp [Option.or]
    · rw [List.filter_append]
      have : (p.1 == t) = false := by simp [hp]
      simp only [List.filter_cons, List.filter_nil, this]
      rw [dictGet_dictSet_ne _ _ _ _ hp, ih]
      simp

theorem chain_cmd_skip (cmd : String) (rest : List String) (armed : Bool)
    (h1 : pyStartsWith cmd "useskill" = false) (h2 : pyStartsWith cmd "target" = false) :
    Parser._parse_character_cmds (cmd :: rest) armed =
      Parser._parse_character_cmds rest armed := by
  simp [Parser._parse_character_cmds, h1, h2]

theorem chain_target_order (cmd : String) (rest : List String) (armed : Bool) (c : Char) (t : Int)
    (h1 : pyStartsWith cmd "useskill" = false)
    (h2 : pyStartsWith cmd "target" = true)
    (h3 : pyCharNeg2 cmd = .ok c)
    (h4 : pyIntChar c = .ok t) :
    Parser._parse_character_cmds (cmd :: rest) armed =
      if ¬(t = 1 ∨ t = 2 ∨ t = 3 ∨ t = 4 ∨ t = 5 ∨ t = 6) then
        .error (.valueError "[Parser] Invalid skill target number")
      else if armed = false then
        .error (.runtimeError "[Parser] Select a skill before picking a target")
      else
        match Parser._parse_character_cmds rest false with
        | .error e => .error e
        | .ok tail => .ok (ScriptAction.act "target" [("idx", t - 1)] :: tail) := by
  simp only [Parser._parse_character_cmds, h1, h2, h3, h4]
  simp

theorem summon_take_second_field (a b : List Char) (rest : List String) (ha : ':' ∉ a) :
    Parser._parse_summon (String.mk ("summon:".data ++ (a ++ ':' :: b)) :: rest) =
      (rest, some (String.mk a)) ∧
    Parser._parse_summon (String.mk ("summon:".data ++ a) :: rest) =
      (rest, some (String.mk a)) := by
  have hsep : ':' ∉ "summon".data := by decide
  have hdata : "summon:".data = "summon".data ++ [':'] := by decide
  constructor
  · have hstart : pyStartsWith (String.mk ("summon:".data ++ (a ++ ':' :: b))) "summon:" = true := by
      unfold pyStartsWith
      exact isStartOf_self_append _ _
    simp only [Parser._parse_summon, hstart, if_pos]
    have hsplit : pySplit ':' ("summon:".data ++ (a ++ ':' :: b)) =
        "summon".data :: a :: pySplit ':' b := by
      rw [hdata]
      rw [List.append_assoc, List.singleton_append]
      rw [pySplit_sep_cons ':' _ _ hsep, pySplit_sep_cons ':' _ _ ha]
    unfold pySplitStr
    simp only [String.data]
    rw [hsplit]
    simp [List.getD]
  · have hstart : pyStartsWith (String.mk ("summon:".data ++ a)) "summon:" = true := by
      unfold pyStartsWith
      exact isStartOf_self_append _ _
    simp only [Parser._parse_summon, hstart, if_pos]
    have hsplit : pySplit ':' ("summon:".data ++ a) = "summon".data :: pySplit ':' a := by
      rw [hdata, List.append_assoc, List.singleton_append]
      exact pySplit_sep_cons ':' _ _ hsep
    unfold pySplitStr
    simp only [String.data]
    rw [hsplit, pySplit_no_sep ':' a ha]
    simp [List.getD]

theorem _parse_combact_trace_rel (text : List String) :
    Parser._parse_combact text =
      match Parser._parse_combact_trace text with
      | .error e => .error e
      | .ok (r, ps) => .ok (r, ps.foldl (fun d p => dictSet d p.1 p.2) []) := by
  unfold Parser._parse_combact Parser._parse_combact_trace
  split
  · rfl
  · exact _parse_combact_loop_trace _ _ []

/-- Sanity check: the whole pipeline reproduces the expected output of the
repository's own unit test (`unit_test/test_parser.py`) on its reference
script. -/
theorem reference_script_compiles_as_expected :
    Parser.parse_raids [
      "// This script starts Semi-Auto mode on Turn 1.",
      "// It will go uninterrupted until either the party wipes or the quest/raid ends.",
      "", "",
      "https://game.granbluefantasy.jp/#quest/supporter/800021/22",
      "summon:Kaguya",
      "repeat:1",
      "",
      "Turn 1:",
      "   quickSummon",
      "   subBack",
      "End",
      "",
      "https://game.granbluefantasy.jp/#quest/supporter/800021/22",
      "suRmmon:Kaguya",
      "",
      "Turn 5:",
      "quickSummon",
      "character1.useSkill(2).useSkill(4)",
      "subBack",
      "End"] =
    .ok [
      (1, ⟨⟨some "https://game.granbluefantasy.jp/#quest/supporter/800021/22",
            some "kaguya", some 1⟩,
           [(1, [ScriptAction.act "quicksummon" [], ScriptAction.act "subback" []])]⟩),
      (2, ⟨⟨some "https://game.granbluefantasy.jp/#quest/supporter/800021/22",
            none, none⟩,
           [(5, [ScriptAction.act "quicksummon" [],
                 ScriptAction.act "selectchar" [("idx", 0)],
                 ScriptAction.act "useskill" [("idx", 1)],
                 ScriptAction.act "useskill" [("idx", 3)],
                 ScriptAction.act "subback" []])]⟩)] := rfl

/-- Claim C1, counterexample: a raid whose turn block is followed by a
`summon:` line loses that turn block.  The turn-block parsing step does
return turn 1 with its `attack` action (first conjunct), yet the compiled
output for the raid has an empty turn mapping (second conjunct), because the
next segmenter cycle overwrites `combact_actions` with the result of parsing
no turn blocks. -/
theorem turn_block_lost_before_summon_line :
    Parser._parse_combact ["turn 1:", "attack", "end", "summon:s"] =
      .ok (["summon:s"], [(1, [ScriptAction.tup "attack"])]) ∧
    Parser.parse_raids ["http://a", "turn 1:", "attack", "end", "summon:s"] =
      .ok [(1, ⟨⟨some "http://a", some "s", none⟩, []⟩)] := ⟨rfl, rfl⟩

/-- Claim C1 (amended): each segmenter cycle replaces the in-progress raid's
turn mapping with this cycle's turn-block parsing result instead of merging:
the remaining lines and the resulting `combact_actions`, `raid_info` and
`raid_cnt` after a cycle are independent of the turn mapping held before the
cycle. -/
theorem cycle_turn_mapping_replaced_not_merged (remain : List String)
    (st : Parser.RaidState) (A B : TurnMap) (r1 r2 : List String)
    (s1 s2 : Parser.RaidState)
    (h1 : Parser.parse_raids_cycle remain { st with combact_actions := A } = .ok (r1, s1))
    (h2 : Parser.parse_raids_cycle remain { st with combact_actions := B } = .ok (r2, s2)) :
    r1 = r2 ∧ s1.combact_actions = s2.combact_actions ∧ s1.raid_info = s2.raid_info ∧
      s1.raid_cnt = s2.raid_cnt :=
  cycle_combact_replaced remain st A B r1 r2 s1 s2 h1 h2

/-- Witness for the amended claim C1 at a concrete cycle input. -/
theorem cycle_turn_mapping_replaced_not_merged_witness :
    ([] : List String) = [] ∧
    (⟨0, [], ⟨none, some "s", none⟩, []⟩ : Parser.RaidState).combact_actions =
      (⟨0, [], ⟨none, some "s", none⟩, []⟩ : Parser.RaidState).combact_actions ∧
    (⟨0, [], ⟨none, some "s", none⟩, []⟩ : Parser.RaidState).raid_info =
      (⟨0, [], ⟨none, some "s", none⟩, []⟩ : Parser.RaidState).raid_info ∧
    (⟨0, [], ⟨none, some "s", none⟩, []⟩ : Parser.RaidState).raid_cnt =
      (⟨0, [], ⟨none, some "s", none⟩, []⟩ : Parser.RaidState).raid_cnt :=
  cycle_turn_mapping_replaced_not_merged ["summon:s"] Parser.initState
    [(1, [ScriptAction.tup "attack"])] [] [] []
    ⟨0, [], ⟨none, some "s", none⟩, []⟩ ⟨0, [], ⟨none, some "s", none⟩, []⟩ rfl rfl

/-- Claim C2 (code bug): a `summon3` line in a turn block never emits
`DeselectCharacter` followed by `UseSummon`.  On the spec's own
`summon<N>` syntax the source computes `int(line[-2])`, i.e. `int("n")`,
which raises `ValueError` before any action is emitted (first conjunct); and
when the index digit is readable at position `[-2]` (e.g. `summon3:`) with a
character selected, the source evaluates the set literal
`\x7b"deselectchar", \x7b\x7d\x7d`, whose dict element is unhashable, raising
`TypeError` (second conjunct); the third conjunct shows the `ValueError`
aborting the whole compilation. -/
theorem summon_line_in_turn_block_crashes :
    Parser._parse_turn ["turn 1:", "character1", "summon3", "end"] =
      .error (.valueError "invalid literal for int") ∧
    Parser._parse_turn ["turn 1:", "character1", "summon3:", "end"] =
      .error (.typeError "unhashable type: dict") ∧
    Parser.parse_raids ["http://a", "turn 1:", "character1", "summon3", "end"] =
      .error (.valueError "invalid literal for int") := ⟨rfl, rfl, rfl⟩

/-- Claim C3, counterexample: the chain segment `foo(1)` is neither a
`useskill` nor a `target` segment, yet `_parse_character` succeeds and simply
drops it instead of failing with a parse error. -/
theorem unknown_chain_segment_silently_ignored :
    Parser._parse_character "character1.foo(1)" false =
      .ok [ScriptAction.act "selectchar" [("idx", 0)]] := rfl

/-- Claim C3 (amended): a dot-separated segment that starts with neither
`useskill` nor `target` is silently skipped by the character-chain segment
loop: it emits no action, raises no error, and leaves the armed flag
unchanged. -/
theorem unknown_chain_segment_skipped (cmd : String) (rest : List String) (armed : Bool)
    (h1 : pyStartsWith cmd "useskill" = false) (h2 : pyStartsWith cmd "target" = false) :
    Parser._parse_character_cmds (cmd :: rest) armed =
      Parser._parse_character_cmds rest armed :=
  chain_cmd_skip cmd rest armed h1 h2

/-- Witness for the amended claim C3 at a concrete segment. -/
theorem unknown_chain_segment_skipped_witness :
    Parser._parse_character_cmds ["foo(1)"] false = Parser._parse_character_cmds [] false :=
  unknown_chain_segment_skipped "foo(1)" [] false rfl rfl

/-- Claim C4: for every input script that compiles without error, the raid ids
of the compiled output are exactly the contiguous integers `1..N` in insertion
order, where `N` is the number of raid blocks; and an input whose normalized
lines contain no URL line (no line starting with `http`) yields exactly one
raid block. -/
theorem raid_ids_contiguous_from_one (txt : List String) (m : CompiledScript)
    (h : Parser.parse_raids txt = .ok m) :
    m.map Prod.fst = List.range' 1 m.length ∧
      ((∀ l ∈ Parser.pre_parse txt, pyStartsWith l "http" = false) → m.length = 1) := by
  unfold Parser.parse_raids at h
  cases hloop : Parser.parse_raids_loop (Parser.pre_parse txt).length (Parser.pre_parse txt)
      Parser.initState with
  | error e => rw [hloop] at h; cases h
  | ok st =>
    rw [hloop] at h
    dsimp only at h
    cases h
    have hkeys := parse_raids_loop_keys _ _ _ _ hloop (by rfl)
    have hfresh : (st.raid_cnt + 1) ∉ st.list_of_raids.map Prod.fst := by
      rw [hkeys]; exact succ_not_mem_range' _
    have hset := dictSet_append_of_fresh st.list_of_raids (st.raid_cnt + 1)
      (⟨st.raid_info, st.combact_actions⟩ : RaidBlock) hfresh
    have hlorlen : st.list_of_raids.length = st.raid_cnt := by
      have hl := congrArg List.length hkeys
      simpa using hl
    constructor
    · rw [hset, List.map_append, hkeys, List.length_append, hlorlen]
      simpa using range'_concat_one st.raid_cnt
    · intro hhttp
      have hz := parse_raids_loop_nourl _ _ _ _ hhttp hloop
      have hcnt : st.raid_cnt = 0 := hz.1
      rw [hset, List.length_append, hlorlen, hcnt]
      rfl

/-- Witness for claim C4 on a concrete script with no URL line. -/
theorem raid_ids_contiguous_from_one_witness :
    ([(1, (⟨⟨none, none, none⟩, []⟩ : RaidBlock))].map Prod.fst =
      List.range' 1 [(1, (⟨⟨none, none, none⟩, []⟩ : RaidBlock))].length) ∧
    ((∀ l ∈ Parser.pre_parse ["hello"], pyStartsWith l "http" = false) →
      [(1, (⟨⟨none, none, none⟩, []⟩ : RaidBlock))].length = 1) :=
  raid_ids_contiguous_from_one ["hello"] [(1, ⟨⟨none, none, none⟩, []⟩)] rfl

/-- Claim C5, counterexample: `character1.target(7)` with no skill armed fails
with the range error (`ValueError`, `InvalidTargetIndex`), not with
`TargetWithoutSkillArmed` (`RuntimeError`): the range check runs first. -/
theorem unarmed_out_of_range_target_raises_range_error :
    Parser._parse_character "character1.target(7)" false =
      .error (.valueError "[Parser] Invalid skill target number") ∧
    PyErr.valueError "[Parser] Invalid skill target number" ≠
      PyErr.runtimeError "[Parser] Select a skill before picking a target" :=
  ⟨rfl, by decide⟩

/-- Claim C5 (amended): for a `target` segment whose index character parses to
`t`, the range check precedes the armed-state check: `t ∉ \x7b1..6\x7d` fails with
`InvalidTargetIndex` regardless of the armed flag; `t ∈ \x7b1..6\x7d` while unarmed
fails with `TargetWithoutSkillArmed`; otherwise `Target\x7bt-1\x7d` is emitted and
the target is disarmed. -/
theorem target_range_check_precedes_armed_check (cmd : String) (rest : List String)
    (armed : Bool) (c : Char) (t : Int)
    (h1 : pyStartsWith cmd "useskill" = false)
    (h2 : pyStartsWith cmd "target" = true)
    (h3 : pyCharNeg2 cmd = .ok c)
    (h4 : pyIntChar c = .ok t) :
    Parser._parse_character_cmds (cmd :: rest) armed =
      if ¬(t = 1 ∨ t = 2 ∨ t = 3 ∨ t = 4 ∨ t = 5 ∨ t = 6) then
        .error (.valueError "[Parser] Invalid skill target number")
      else if armed = false then
        .error (.runtimeError "[Parser] Select a skill before picking a target")
      else
        match Parser._parse_character_cmds rest false with
        | .error e => .error e
        | .ok tail => .ok (ScriptAction.act "target" [("idx", t - 1)] :: tail) :=
  chain_target_order cmd rest armed c t h1 h2 h3 h4

/-- Witness for the amended claim C5 at the concrete segment `target(7)`. -/
theorem target_range_check_precedes_armed_check_witness :
    Parser._parse_character_cmds ["target(7)"] false =
      if ¬((7 : Int) = 1 ∨ (7 : Int) = 2 ∨ (7 : Int) = 3 ∨ (7 : Int) = 4 ∨
           (7 : Int) = 5 ∨ (7 : Int) = 6) then
        .error (.valueError "[Parser] Invalid skill target number")
      else if false = false then
        .error (.runtimeError "[Parser] Select a skill before picking a target")
      else
        match Parser._parse_character_cmds [] false with
        | .error e => .error e
        | .ok tail => .ok (ScriptAction.act "target" [("idx", (7 : Int) - 1)] :: tail) :=
  target_range_check_precedes_armed_check "target(7)" [] false '7' 7 rfl rfl rfl rfl

/-- Claim C6, counterexample: the line `/x` is dropped by the preprocessor
although, after trimming, it is neither empty nor a `#` comment nor a `//`
comment: the source tests `startswith("/")`, a single slash. -/
theorem single_slash_line_dropped :
    Parser.pre_parse ["/x"] = [] ∧
    ¬(pyStrip "/x" = "" ∨ pyStartsWith (pyStrip "/x") "#" = true ∨
      pyStartsWith (pyStrip "/x") "//" = true) := ⟨rfl, by decide⟩

/-- Claim C6 (amended): a line is dropped exactly when its stripped,
lower-cased form is empty or starts with `#` or starts with a single `/`;
every surviving line appears as its stripped, lower-cased form, in input
order; the stage is total (it returns a plain list, never an error). -/
theorem pre_parse_characterization (text : List String) :
    Parser.pre_parse text = text.filterMap fun raw =>
      if dropCond (pyLower (pyStrip raw)) then none else some (pyLower (pyStrip raw)) :=
  pre_parse_eq_filterMap text

/-- Claim C7, counterexample: on `summon:a:b` the recorded summon name is `a`
(the text between the first and second colon), not the entire remainder
`a:b` after the first colon. -/
theorem summon_name_truncated_at_second_colon :
    Parser._parse_summon ["summon:a:b"] = ([], some "a") ∧ "a" ≠ "a:b" := ⟨rfl, by decide⟩

/-- Claim C7 (amended): the summon field records `line.split(':')[1]`, the
text between the first and the second colon: with a colon-free name `a`,
both `summon:a` and `summon:a:b` record exactly `a`, and anything after a
second colon is discarded. -/
theorem summon_field_between_first_and_second_colon (a b : List Char) (rest : List String)
    (ha : ':' ∉ a) :
    Parser._parse_summon (String.mk ("summon:".data ++ (a ++ ':' :: b)) :: rest) =
      (rest, some (String.mk a)) ∧
    Parser._parse_summon (String.mk ("summon:".data ++ a) :: rest) =
      (rest, some (String.mk a)) :=
  summon_take_second_field a b rest ha

/-- Witness for the amended claim C7 at a concrete summon line. -/
theorem summon_field_between_first_and_second_colon_witness :
    Parser._parse_summon (String.mk ("summon:".data ++ ("kaguya".data ++ ':' :: "x".data)) :: []) =
      ([], some (String.mk "kaguya".data)) ∧
    Parser._parse_summon (String.mk ("summon:".data ++ "kaguya".data) :: []) =
      ([], some (String.mk "kaguya".data)) :=
  summon_field_between_first_and_second_colon "kaguya".data "x".data [] (by decide)

/-- Claim C8: every successful cycle of the raid segmenter's main loop
strictly decreases the number of remaining lines — when none of the
URL/summon/repeat/turn-block steps consumes input, the cycle pops the first
remaining line — so the loop terminates on every finite input.  (See also
`parse_raids_ne_loopFuel`: the fuel bound of the embedding never fires.) -/
theorem segmenter_cycle_strictly_decreases (remain : List String) (st : Parser.RaidState)
    (r' : List String) (st' : Parser.RaidState)
    (h : Parser.parse_raids_cycle remain st = .ok (r', st')) :
    r'.length < remain.length :=
  (parse_raids_cycle_consumes remain st r' st' h).2

/-- Witness for claim C8 at a concrete unparsable line. -/
theorem segmenter_cycle_strictly_decreases_witness :
    ([] : List String).length < ["x"].length :=
  segmenter_cycle_strictly_decreases ["x"] Parser.initState [] Parser.initState rfl

/-- Claim C9: compiling the preprocessor's output yields the same compiled
script as compiling the raw input — the preprocessor is idempotent, and
`parse_raids` begins by preprocessing. -/
theorem recompiling_preprocessed_output_is_identity (txt : List String) :
    Parser.parse_raids (Parser.pre_parse txt) = Parser.parse_raids txt := by
  unfold Parser.parse_raids
  rw [pre_parse_idem]

/-- Claim C10: within one contiguous run of turn blocks, when several blocks
declare the same turn number, the compiled turn mapping holds exactly the
actions of the last such block: looking up `t` in the mapping returns the
last `t`-keyed entry of the parsed turn-block sequence (`_parse_combact_trace`),
so an earlier block with the same number is silently replaced, not appended
or rejected. -/
theorem duplicate_turn_number_last_block_wins (text rem rem2 : List String) (m : TurnMap)
    (ps : List (Int × List ScriptAction)) (t : Int)
    (h1 : Parser._parse_combact text = .ok (rem, m))
    (h2 : Parser._parse_combact_trace text = .ok (rem2, ps)) :
    rem = rem2 ∧ dictGet m t = ((ps.filter fun p => p.1 == t).getLast?).map Prod.snd := by
  have hrel := _parse_combact_trace_rel text
  rw [h2] at hrel
  dsimp only at hrel
  rw [h1] at hrel
  injection hrel with h'
  injection h' with ha hb
  refine ⟨ha, ?_⟩
  rw [hb, dictGet_foldl_dictSet]
  cases hLast : (ps.filter fun p => p.1 == t).getLast? with
  | some q => simp
  | none => simp [dictGet]

/-- Witness for claim C10 on two turn blocks both numbered 1: the compiled
mapping holds the second (empty) action list. -/
theorem duplicate_turn_number_last_block_wins_witness :
    ([] : List String) = [] ∧
    dictGet [((1 : Int), ([] : List ScriptAction))] 1 =
      (([((1 : Int), [ScriptAction.tup "attack"]), (1, [])].filter
          fun p => p.1 == (1 : Int)).getLast?).map Prod.snd :=
  duplicate_turn_number_last_block_wins ["turn 1:", "attack", "end", "turn 1:", "end"]
    [] [] [(1, [])] [(1, [ScriptAction.tup "attack"]), (1, [])] 1 rfl rfl
